import Mathlib

/-!
Verification of the JWE Compact Serialization producer
(`src/lib/jose-jwe-encrypt.js` of js-jose).

The source is promise-based JavaScript.  We embed it shallowly:

* a settled promise is an `Except Err α` (resolved or rejected);
* the `Encrypter` object is a record threaded explicitly;
* every call the Encrypter makes into the `Cryptographer` delegate is
  recorded, in the order the JavaScript engine would issue it, in an
  explicit event trace (`Event`); the synchronous body of `encrypt`
  runs first (`encryptPhase1`), the `.then` callbacks — which fire on
  the microtask queue after the synchronous body — run second
  (`encryptPhase2`).

External collaborators (the `Utils` encoding helpers and the JSON
serializer) are not under `src/`; they are modelled from the spec where
noted.
-/

namespace Jose

/-- Byte sequences (JS `Uint8Array`) as lists of naturals. -/
abbrev Bytes := List Nat

/-- Modelled from the spec: the base64url alphabet (`base64UrlEncode`,
no padding, URL-safe alphabet) of the external encoding utility. -/
def b64Alphabet : List Char :=
  ['A','B','C','D','E','F','G','H','I','J','K','L','M',
   'N','O','P','Q','R','S','T','U','V','W','X','Y','Z',
   'a','b','c','d','e','f','g','h','i','j','k','l','m',
   'n','o','p','q','r','s','t','u','v','w','x','y','z',
   '0','1','2','3','4','5','6','7','8','9','-','_']

/-- The base64url digit for a 6-bit value. -/
def b64Char (n : Nat) : Char := b64Alphabet.getD (n % 64) 'A'

/-- Modelled from the spec: base64url encoding of a byte sequence
(`base64UrlEncodeBytes`), three bytes to four digits, no padding. -/
def encodeChunks : Bytes → List Char
  | b1 :: b2 :: b3 :: rest =>
      b64Char (b1 / 4) :: b64Char (b1 % 4 * 16 + b2 / 16) ::
      b64Char (b2 % 16 * 4 + b3 / 64) :: b64Char (b3 % 64) :: encodeChunks rest
  | [b1, b2] => [b64Char (b1 / 4), b64Char (b1 % 4 * 16 + b2 / 16), b64Char (b2 % 16 * 4)]
  | [b1] => [b64Char (b1 / 4), b64Char (b1 % 4 * 16)]
  | [] => []

namespace Base64Url

/-- Modelled from the spec: `Utils.Base64Url.encodeArray` — base64url
encoding of a byte sequence, no padding. -/
def encodeArray (bs : Bytes) : String := String.mk (encodeChunks bs)

end Base64Url

/-- Modelled from the spec: `Utils.arrayFromString` — the byte sequence
of a string (`utf8Bytes`; code-unit values, which coincide with UTF-8
on the ASCII strings produced here). -/
def arrayFromString (s : String) : Bytes := s.data.map Char.toNat

namespace Base64Url

/-- Modelled from the spec: `Utils.Base64Url.encode` — base64url
encoding of a string's bytes, no padding. -/
def encode (s : String) : String := encodeArray (arrayFromString s)

end Base64Url

/-- Modelled from the spec: JSON string quoting as done by the external
JSON serializer (`JSON.stringify`) on the flat string-to-string header
map; quotes and backslashes are escaped. -/
def jsonQuote (s : String) : String :=
  String.mk ('"' :: (s.data.flatMap fun c =>
    if c = '"' ∨ c = '\\' then ['\\', c] else [c]) ++ ['"'])

/-- Modelled from the spec: `JSON.stringify` on the header map, keys in
insertion order. -/
def jsonStringify (m : List (String × String)) : String :=
  "\x7b" ++ String.intercalate ","
    (m.map fun kv => jsonQuote kv.1 ++ ":" ++ jsonQuote kv.2) ++ "\x7d"

/-- JavaScript property assignment `obj[k] = v` on an object represented
as an insertion-ordered association list: an existing key keeps its
position and gets the new value, a new key is appended. -/
def setKey : List (String × String) → String → String → List (String × String)
  | [], k, v => [(k, v)]
  | (k0, v0) :: rest, k, v =>
      if k0 = k then (k0, v) :: rest else (k0, v0) :: setKey rest k v

/-- The `for (var i in self.userHeaders) headers[i] = self.userHeaders[i]`
copy loop of `encryptPlainText`: builds a fresh object holding the same
key/value pairs, in enumeration (insertion) order. -/
def snapshotHeaders (m : List (String × String)) : List (String × String) :=
  m.foldl (fun acc kv => setKey acc kv.1 kv.2) []

/-- The `{ cipher, tag }` record resolved by the Cryptographer's content
encryption. -/
structure EncryptedParts where
  cipher : Bytes
  tag : Bytes
  deriving Repr, DecidableEq

/-- The record flowing out of `encryptPlainText` after its `.then`
callback has attached `r.header` and `r.iv`. -/
structure EncData where
  header : String
  iv : Bytes
  cipher : Bytes
  tag : Bytes
  deriving Repr, DecidableEq

/-- The Cryptographer delegate (`WebCryptographer` or equivalent),
specified at its interface boundary: algorithm identifiers, CEK
creation, IV creation, key wrapping and content encryption.  Promises
it returns are settled `Except` values; `encrypt` receives the CEK
promise itself, as in the source. -/
structure Cryptographer (K Cek Err : Type) where
  getKeyEncryptionAlgorithm : String
  getContentEncryptionAlgorithm : String
  createCek : Except Err Cek
  createIV : Bytes
  wrapCek : Cek → K → Except Err Bytes
  encrypt : Bytes → Bytes → Except Err Cek → Bytes → Except Err EncryptedParts

/-- `JoseJWE.Encrypter`: a Cryptographer, a recipient-key promise and
the mutable user header map (a JS object: insertion-ordered, unique
keys). -/
structure Encrypter (K Cek Err : Type) where
  cryptographer : Cryptographer K Cek Err
  key_promise : Except Err K
  userHeaders : List (String × String)

/-- `new JoseJWE.Encrypter(cryptographer, key_promise)`: the header map
starts empty. -/
def mkEncrypter {K Cek Err : Type} (c : Cryptographer K Cek Err)
    (kp : Except Err K) : Encrypter K Cek Err :=
  { cryptographer := c, key_promise := kp, userHeaders := [] }

/-- `Encrypter.prototype.addHeader(k, v)`: `this.userHeaders[k] = v`. -/
def Encrypter.addHeader {K Cek Err : Type} (e : Encrypter K Cek Err)
    (k v : String) : Encrypter K Cek Err :=
  { e with userHeaders := setKey e.userHeaders k v }

/-- A call the Encrypter issues to its Cryptographer, or the taking of
the header snapshot, recorded in execution order. -/
inductive Event (K Cek : Type) where
  | createCekCall
  | snapshotTaken (headers : List (String × String))
  | createIVCall
  | contentEncryptCall (iv : Bytes) (aad : Bytes) (plaintext : Bytes)
  | wrapCekCall (cek : Cek) (key : K)
  deriving DecidableEq

/-- True exactly on the events that initiate a Cryptographer
operation. -/
def Event.isCryptoCall {K Cek : Type} : Event K Cek → Bool
  | .snapshotTaken _ => false
  | _ => true

/-- True exactly on the snapshot event. -/
def Event.isSnapshot {K Cek : Type} : Event K Cek → Bool
  | .snapshotTaken _ => true
  | _ => false

/-- True exactly on the key-wrapping call. -/
def Event.isWrapCall {K Cek : Type} : Event K Cek → Bool
  | .wrapCekCall _ _ => true
  | _ => false

/-- The snapshot header object of `encryptPlainText`: the copy of
`userHeaders` with `headers.alg` and `headers.enc` then assigned from
the Cryptographer's configuration. -/
def buildHeaders {K Cek Err : Type} (e : Encrypter K Cek Err) :
    List (String × String) :=
  setKey (setKey (snapshotHeaders e.userHeaders)
      "alg" e.cryptographer.getKeyEncryptionAlgorithm)
    "enc" e.cryptographer.getContentEncryptionAlgorithm

/-- Everything computed by the synchronous body of
`Encrypter.prototype.encrypt`, in source order: the `createCek()` call,
then `encryptPlainText`'s snapshot, header encoding, IV creation, AAD
construction and the initiation of `cryptographer.encrypt`. -/
structure Phase1 (K Cek Err : Type) where
  header : String
  iv : Bytes
  cek_promise : Except Err Cek
  enc_promise : Except Err EncData
  events : List (Event K Cek)

/-- The synchronous body of `encrypt(plain_text)`.  `createCek()` runs
first (line 89 of the source); `encryptPlainText` then takes the header
snapshot, base64url-encodes the JSON header, creates the IV, builds the
AAD from the protected-header bytes and calls
`cryptographer.encrypt(iv, aad, cek_promise, plain_text)`; its `.then`
attaches the header string and IV to the result. -/
def encryptPhase1 {K Cek Err : Type} (e : Encrypter K Cek Err)
    (plain_text : String) : Phase1 K Cek Err :=
  let cek_promise := e.cryptographer.createCek
  let headers := buildHeaders e
  let jwe_protected_header := Base64Url.encode (jsonStringify headers)
  let iv := e.cryptographer.createIV
  let aad := arrayFromString jwe_protected_header
  let pt := arrayFromString plain_text
  let enc_promise := (e.cryptographer.encrypt iv aad cek_promise pt).map
    fun r => { header := jwe_protected_header, iv := iv,
               cipher := r.cipher, tag := r.tag }
  { header := jwe_protected_header
    iv := iv
    cek_promise := cek_promise
    enc_promise := enc_promise
    events := [.createCekCall, .snapshotTaken (snapshotHeaders e.userHeaders),
               .createIVCall, .contentEncryptCall iv aad pt] }

/-- The deferred callbacks of `encrypt`: the
`Promise.all([key_promise, cek_promise])` continuation that calls
`this.cryptographer.wrapCek(cek, key)` (only when both resolved; the
first rejection propagates otherwise), and the final
`Promise.all([encrypted_cek, enc_promise])` continuation that joins the
five dot-separated segments.  `e` is the `this` captured by
`.bind(this)`, read again at callback time. -/
def encryptPhase2 {K Cek Err : Type} (e : Encrypter K Cek Err)
    (p : Phase1 K Cek Err) : List (Event K Cek) × Except Err String :=
  let wrapStep : List (Event K Cek) × Except Err Bytes :=
    match e.key_promise, p.cek_promise with
    | .ok key, .ok cek => ([.wrapCekCall cek key], e.cryptographer.wrapCek cek key)
    | .error err, _ => ([], .error err)
    | .ok _, .error err => ([], .error err)
  let result : Except Err String :=
    match wrapStep.2, p.enc_promise with
    | .ok encrypted_cek, .ok data =>
        .ok (data.header ++ "." ++
             Base64Url.encodeArray encrypted_cek ++ "." ++
             Base64Url.encodeArray data.iv ++ "." ++
             Base64Url.encodeArray data.cipher ++ "." ++
             Base64Url.encodeArray data.tag)
    | .error err, _ => .error err
    | .ok _, .error err => .error err
  (wrapStep.1, result)

/-- A whole `encrypt(plain_text)` call: the synchronous phase, then the
microtask phase; yields the Encrypter object as it stands afterwards,
the full trace of Cryptographer calls in issue order, and the settled
result promise. -/
def encryptRun {K Cek Err : Type} (e : Encrypter K Cek Err)
    (plain_text : String) :
    Encrypter K Cek Err × List (Event K Cek) × Except Err String :=
  let p := encryptPhase1 e plain_text
  let step2 := encryptPhase2 e p
  (e, p.events ++ step2.1, step2.2)

/-- `Encrypter.prototype.encrypt`: the settled value of the returned
promise. -/
def Encrypter.encrypt {K Cek Err : Type} (e : Encrypter K Cek Err)
    (plain_text : String) : Except Err String :=
  (encryptRun e plain_text).2.2

/-- The trace of Cryptographer calls issued by one `encrypt` call. -/
def encryptTrace {K Cek Err : Type} (e : Encrypter K Cek Err)
    (plain_text : String) : List (Event K Cek) :=
  (encryptRun e plain_text).2.1

/-- The claimed ordering discipline: the header snapshot is taken
strictly before any Cryptographer operation is initiated. -/
def snapshotBeforeAllCryptoCalls {K Cek : Type} (tr : List (Event K Cek)) : Prop :=
  ∀ (i j : Nat) (ei ej : Event K Cek), tr[i]? = some ei → tr[j]? = some ej →
    ei.isSnapshot = true → ej.isCryptoCall = true → i < j

/-- A deterministic mock Cryptographer (keys and CEKs are naturals,
errors are strings) used to instantiate the generic theorems. -/
def mockCryptographer : Cryptographer Nat Nat String :=
  { getKeyEncryptionAlgorithm := "RSA-OAEP"
    getContentEncryptionAlgorithm := "A256GCM"
    createCek := .ok 7
    createIV := [4]
    wrapCek := fun cek key => .ok [cek, key]
    encrypt := fun iv aad cekp pt =>
      match cekp with
      | .ok cek => .ok { cipher := iv ++ aad ++ pt ++ [cek], tag := [9] }
      | .error err => .error err }

/-- A concrete Encrypter over the mock Cryptographer with recipient
key 5 and no user headers. -/
def mockEncrypter : Encrypter Nat Nat String :=
  mkEncrypter mockCryptographer (.ok 5)

/-- A concrete Encrypter whose recipient-key promise is rejected. -/
def mockEncrypterKeyFail : Encrypter Nat Nat String :=
  mkEncrypter mockCryptographer (.error "key unavailable")

/-- The token a concrete successful `encrypt` call resolves to
(arbitrary if the call fails): used to instantiate success-conditioned
theorems at concrete inputs. -/
def tokenOf {K Cek Err : Type} (e : Encrypter K Cek Err)
    (plain_text : String) : String :=
  match e.encrypt plain_text with
  | .ok t => t
  | .error _ => ""

/-- Number of entries of the association list carrying key `k`. -/
def countKey (m : List (String × String)) (k : String) : Nat :=
  m.countP (fun p => p.1 == k)

/-- A concrete Encrypter on which `addHeader("alg", …)` was called twice
before encrypting. -/
def eC9 : Encrypter Nat Nat String :=
  (mockEncrypter.addHeader "alg" "v1").addHeader "alg" "v2"

/-- The last four segments of the token `eC9` produces for the empty
plaintext, written out from the mock Cryptographer's outputs. -/
def restC9 : String :=
  Base64Url.encodeArray [7, 5] ++ "." ++
  Base64Url.encodeArray [4] ++ "." ++
  Base64Url.encodeArray
    ([4] ++ arrayFromString (Base64Url.encode (jsonStringify (buildHeaders eC9)))
      ++ arrayFromString "" ++ [7]) ++ "." ++
  Base64Url.encodeArray [9]

/- ### Helper lemmas -/

theorem string_data_append (a b : String) : (a ++ b).data = a.data ++ b.data := rfl

theorem b64Char_mem (n : Nat) : b64Char n ∈ b64Alphabet := by
  have hlt : n % 64 < b64Alphabet.length := by
    have : n % 64 < 64 := Nat.mod_lt _ (by omega)
    simpa [b64Alphabet] using this
  rw [b64Char, List.getD_eq_getElem _ _ hlt]
  exact List.getElem_mem hlt

theorem b64Char_ne_dot (n : Nat) : b64Char n ≠ '.' := by
  intro h
  have hmem := b64Char_mem n
  rw [h] at hmem
  revert hmem
  decide

theorem encodeChunks_count_dot (bs : Bytes) : (encodeChunks bs).count '.' = 0 := by
  induction bs using encodeChunks.induct with
  | case1 b1 b2 b3 rest ih =>
      simp [encodeChunks, List.count_cons, ih,
        fun n => (b64Char_ne_dot n).symm]
  | case2 b1 b2 =>
      simp [encodeChunks, List.count_cons, fun n => (b64Char_ne_dot n).symm]
  | case3 b1 =>
      simp [encodeChunks, List.count_cons, fun n => (b64Char_ne_dot n).symm]
  | case4 =>
      simp [encodeChunks]

theorem encodeArray_count_dot (bs : Bytes) :
    (Base64Url.encodeArray bs).data.count '.' = 0 :=
  encodeChunks_count_dot bs

theorem encode_count_dot (s : String) :
    (Base64Url.encode s).data.count '.' = 0 :=
  encodeChunks_count_dot _

theorem lookup_setKey_self (m : List (String × String)) (k v : String) :
    List.lookup k (setKey m k v) = some v := by
  induction m with
  | nil => simp [setKey]
  | cons hd tl ih =>
      obtain ⟨k0, v0⟩ := hd
      by_cases h : k0 = k
      · subst h; simp [setKey]
      · have hb : (k == k0) = false := by simp [Ne.symm h]
        simp [setKey, h, List.lookup, hb, ih]

theorem lookup_setKey_ne (m : List (String × String)) (k k2 v : String)
    (h : k ≠ k2) : List.lookup k (setKey m k2 v) = List.lookup k m := by
  have hb2 : (k == k2) = false := by simp [h]
  induction m with
  | nil => simp [setKey, List.lookup, hb2]
  | cons hd tl ih =>
      obtain ⟨k0, v0⟩ := hd
      by_cases h0 : k0 = k2
      · subst h0
        simp [setKey, List.lookup, hb2]
      · by_cases hk : k = k0
        · subst hk; simp [setKey, h0, List.lookup]
        · have hb0 : (k == k0) = false := by simp [hk]
          simp [setKey, h0, List.lookup, hb0, ih]

theorem countKey_setKey_ne (m : List (String × String)) (k k2 v : String)
    (h : k2 ≠ k) : countKey (setKey m k2 v) k = countKey m k := by
  induction m with
  | nil => simp [setKey, countKey, h]
  | cons hd tl ih =>
      obtain ⟨k0, v0⟩ := hd
      by_cases h0 : k0 = k2
      · subst h0; simp [setKey, countKey, h]
      · simp only [setKey, h0, if_false]
        simp only [countKey, List.countP_cons] at ih ⊢
        omega

theorem countKey_eq_zero_of_not_mem (m : List (String × String)) (k : String)
    (h : k ∉ m.map Prod.fst) : countKey m k = 0 := by
  induction m with
  | nil => simp [countKey]
  | cons hd tl ih =>
      simp only [List.map_cons, List.mem_cons, not_or] at h
      simp only [countKey, List.countP_cons] at ih ⊢
      have h1 : (hd.1 == k) = false := by
        simp [Ne.symm h.1]
      rw [h1]
      simpa [countKey] using ih h.2

theorem countKey_setKey_self (m : List (String × String)) (k v : String)
    (h : countKey m k ≤ 1) : countKey (setKey m k v) k = 1 := by
  induction m with
  | nil => simp [setKey, countKey]
  | cons hd tl ih =>
      obtain ⟨k0, v0⟩ := hd
      by_cases h0 : k0 = k
      · subst h0
        simp only [setKey, if_pos rfl]
        simp only [countKey, List.countP_cons, beq_self_eq_true, if_pos] at h ⊢
        simp only [countKey] at *
        omega
      · simp only [setKey, h0, if_false]
        simp only [countKey, List.countP_cons] at h ih ⊢
        have h1 : ((k0, v0).1 == k) = false := by simp [h0]
        rw [h1] at h ⊢
        simpa using ih (by omega)

theorem filter_setKey_self (m : List (String × String)) (k v : String)
    (h : countKey m k ≤ 1) :
    (setKey m k v).filter (fun p => p.1 == k) = [(k, v)] := by
  induction m with
  | nil => simp [setKey]
  | cons hd tl ih =>
      obtain ⟨k0, v0⟩ := hd
      by_cases h0 : k0 = k
      · subst h0
        simp only [setKey, if_pos rfl, List.filter_cons, beq_self_eq_true]
        have htl : countKey tl k0 = 0 := by
          simp only [countKey, List.countP_cons, beq_self_eq_true, if_pos] at h
          simp only [countKey]
          omega
        have : tl.filter (fun p => p.1 == k0) = [] := by
          rw [List.filter_eq_nil_iff]
          intro p hp hbeq
          have hpos : 0 < tl.countP (fun p => p.1 == k0) :=
            List.countP_pos_iff.mpr ⟨p, hp, hbeq⟩
          simp only [countKey] at htl
          omega
        simp [this]
      · simp only [setKey, h0, if_false, List.filter_cons]
        have h1 : ((k0, v0).1 == k) = false := by simp [h0]
        rw [h1]
        simp only [countKey, List.countP_cons, h1, if_false] at h
        simpa using ih (by simpa [countKey] using h)

theorem filter_setKey_ne (m : List (String × String)) (k k2 v : String)
    (h : k2 ≠ k) :
    (setKey m k2 v).filter (fun p => p.1 == k) = m.filter (fun p => p.1 == k) := by
  induction m with
  | nil => simp [setKey, h]
  | cons hd tl ih =>
      obtain ⟨k0, v0⟩ := hd
      by_cases h0 : k0 = k2
      · subst h0
        simp [setKey, List.filter_cons, h]
      · simp [setKey, h0, List.filter_cons, ih]

theorem setKey_of_not_mem (m : List (String × String)) (k v : String)
    (h : k ∉ m.map Prod.fst) : setKey m k v = m ++ [(k, v)] := by
  induction m with
  | nil => simp [setKey]
  | cons hd tl ih =>
      simp only [List.map_cons, List.mem_cons, not_or] at h
      obtain ⟨k0, v0⟩ := hd
      simp only [setKey, Ne.symm h.1, if_false]
      simpa using ih h.2

theorem map_fst_setKey (m : List (String × String)) (k v : String) :
    (setKey m k v).map Prod.fst =
      if k ∈ m.map Prod.fst then m.map Prod.fst else m.map Prod.fst ++ [k] := by
  induction m with
  | nil => simp [setKey]
  | cons hd tl ih =>
      obtain ⟨k0, v0⟩ := hd
      by_cases h0 : k0 = k
      · subst h0; simp [setKey]
      · simp only [setKey, h0, if_false, List.map_cons, ih, List.mem_cons]
        by_cases hm : k ∈ tl.map Prod.fst <;>
          simp [hm, Ne.symm h0, h0]

theorem nodup_map_fst_setKey (m : List (String × String)) (k v : String)
    (h : (m.map Prod.fst).Nodup) : ((setKey m k v).map Prod.fst).Nodup := by
  rw [map_fst_setKey]
  by_cases hm : k ∈ m.map Prod.fst
  · simpa [hm] using h
  · simp only [hm, if_false]
    rw [List.nodup_append]
    exact ⟨h, List.nodup_singleton k, by
      intro a ha hb
      simp only [List.mem_singleton] at hb
      subst hb
      exact hm ha⟩

theorem foldl_setKey_append (m : List (String × String)) :
    ∀ acc : List (String × String), (m.map Prod.fst).Nodup →
    (∀ k, k ∈ m.map Prod.fst → k ∉ acc.map Prod.fst) →
    m.foldl (fun a kv => setKey a kv.1 kv.2) acc = acc ++ m := by
  induction m with
  | nil => intro acc _ _; simp
  | cons hd tl ih =>
      intro acc hm hdisj
      obtain ⟨k0, v0⟩ := hd
      have hm' : (k0 :: tl.map Prod.fst).Nodup := by simpa using hm
      have hk0 : k0 ∉ tl.map Prod.fst := (List.nodup_cons.mp hm').1
      simp only [List.foldl_cons]
      rw [setKey_of_not_mem _ _ _ (hdisj k0 (by simp))]
      rw [ih (acc ++ [(k0, v0)]) (List.nodup_cons.mp hm').2 ?_]
      · simp
      · intro k hk
        simp only [List.map_append, List.mem_append, not_or]
        constructor
        · exact hdisj k (by simp [hk])
        · intro hsing
          simp only [List.map_cons, List.map_nil, List.mem_cons,
            List.not_mem_nil, or_false] at hsing
          subst hsing
          exact hk0 hk

theorem snapshotHeaders_eq_self (m : List (String × String))
    (h : (m.map Prod.fst).Nodup) : snapshotHeaders m = m := by
  rw [snapshotHeaders, foldl_setKey_append m [] h (by simp)]
  exact List.nil_append m

theorem encrypt_ok_elim {K Cek Err : Type} {e : Encrypter K Cek Err}
    {pt t : String} (h : e.encrypt pt = .ok t) :
    ∃ key cek w parts,
      e.key_promise = .ok key ∧
      e.cryptographer.createCek = .ok cek ∧
      e.cryptographer.wrapCek cek key = .ok w ∧
      e.cryptographer.encrypt e.cryptographer.createIV
        (arrayFromString (Base64Url.encode (jsonStringify (buildHeaders e))))
        e.cryptographer.createCek (arrayFromString pt) = .ok parts ∧
      t = Base64Url.encode (jsonStringify (buildHeaders e)) ++ "." ++
          Base64Url.encodeArray w ++ "." ++
          Base64Url.encodeArray e.cryptographer.createIV ++ "." ++
          Base64Url.encodeArray parts.cipher ++ "." ++
          Base64Url.encodeArray parts.tag := by
  unfold Encrypter.encrypt encryptRun at h
  simp only [encryptPhase1, encryptPhase2] at h
  cases hkp : e.key_promise with
  | error err => simp [hkp] at h
  | ok key =>
    cases hcek : e.cryptographer.createCek with
    | error err => simp [hkp, hcek] at h
    | ok cek =>
      simp only [hkp, hcek] at h
      cases hw : e.cryptographer.wrapCek cek key with
      | error err => simp [hw] at h
      | ok w =>
        simp only [hw] at h
        cases he : e.cryptographer.encrypt e.cryptographer.createIV
            (arrayFromString (Base64Url.encode (jsonStringify (buildHeaders e))))
            e.cryptographer.createCek (arrayFromString pt) with
        | error err =>
            rw [hcek] at he
            simp [he, Except.map] at h
        | ok parts =>
            rw [hcek] at he
            simp only [he, Except.map, Except.ok.injEq] at h
            exact ⟨key, cek, w, parts, rfl, rfl, hw, he, h.symm⟩

theorem countKey_le_one_of_nodup (m : List (String × String)) (k : String)
    (h : (m.map Prod.fst).Nodup) : countKey m k ≤ 1 := by
  induction m with
  | nil => simp [countKey]
  | cons hd tl ih =>
      simp only [List.map_cons, List.nodup_cons] at h
      simp only [countKey, List.countP_cons]
      by_cases hk : hd.1 = k
      · subst hk
        have : countKey tl hd.1 = 0 := countKey_eq_zero_of_not_mem _ _ h.1
        simp only [countKey] at this
        simp [this]
      · have h1 : (hd.1 == k) = false := by simp [hk]
        rw [h1]
        simpa [countKey] using ih h.2

/- ### Claim theorems -/

/-- C1: for every plaintext string (including the empty string), a successful
`encrypt` call resolves to a string of exactly five base64url segments joined
by "." (exactly four separator characters), in the fixed order:
protected-header, wrapped-CEK, IV, ciphertext, tag — each segment being the
encoding of the corresponding operation's output: the first encodes the
snapshot header JSON, the second the `wrapCek` output, the third the created
IV, the fourth the content-encryption ciphertext, the fifth its tag. -/
theorem C1_encrypt_five_segments {K Cek Err : Type} (e : Encrypter K Cek Err)
    (pt t : String) (h : e.encrypt pt = .ok t) :
    (∃ (key : K) (cek : Cek) (w : Bytes) (parts : EncryptedParts),
      e.key_promise = .ok key ∧
      e.cryptographer.createCek = .ok cek ∧
      e.cryptographer.wrapCek cek key = .ok w ∧
      e.cryptographer.encrypt e.cryptographer.createIV
        (arrayFromString (Base64Url.encode (jsonStringify (buildHeaders e))))
        e.cryptographer.createCek (arrayFromString pt) = .ok parts ∧
      t = Base64Url.encode (jsonStringify (buildHeaders e)) ++ "." ++
          Base64Url.encodeArray w ++ "." ++
          Base64Url.encodeArray e.cryptographer.createIV ++ "." ++
          Base64Url.encodeArray parts.cipher ++ "." ++
          Base64Url.encodeArray parts.tag) ∧
    t.data.count '.' = 4 := by
  obtain ⟨key, cek, w, parts, hk, hc, hw, he, ht⟩ := encrypt_ok_elim h
  refine ⟨⟨key, cek, w, parts, hk, hc, hw, he, ht⟩, ?_⟩
  subst ht
  simp [string_data_append, List.count_append, encode_count_dot,
    encodeArray_count_dot, List.count_cons]

/-- Witness for C1 at a concrete successful call. -/
theorem C1_witness :
    (∃ (key : Nat) (cek : Nat) (w : Bytes) (parts : EncryptedParts),
      mockEncrypter.key_promise = .ok key ∧
      mockEncrypter.cryptographer.createCek = .ok cek ∧
      mockEncrypter.cryptographer.wrapCek cek key = .ok w ∧
      mockEncrypter.cryptographer.encrypt mockEncrypter.cryptographer.createIV
        (arrayFromString (Base64Url.encode (jsonStringify (buildHeaders mockEncrypter))))
        mockEncrypter.cryptographer.createCek (arrayFromString "") = .ok parts ∧
      tokenOf mockEncrypter "" =
        Base64Url.encode (jsonStringify (buildHeaders mockEncrypter)) ++ "." ++
        Base64Url.encodeArray w ++ "." ++
        Base64Url.encodeArray mockEncrypter.cryptographer.createIV ++ "." ++
        Base64Url.encodeArray parts.cipher ++ "." ++
        Base64Url.encodeArray parts.tag) ∧
    (tokenOf mockEncrypter "").data.count '.' = 4 :=
  C1_encrypt_five_segments mockEncrypter "" (tokenOf mockEncrypter "") (by rfl)

/-- C2: the byte sequence passed as AAD to the content-encryption operation is
byte-identical to the bytes of the protected-header string that becomes the
first segment of the resulting token. -/
theorem C2_aad_is_header_bytes {K Cek Err : Type} (e : Encrypter K Cek Err)
    (pt : String) :
    (Event.contentEncryptCall e.cryptographer.createIV
        (arrayFromString (encryptPhase1 e pt).header)
        (arrayFromString pt) ∈ encryptTrace e pt) ∧
    (∀ iv aad ptb, Event.contentEncryptCall iv aad ptb ∈ encryptTrace e pt →
        aad = arrayFromString (encryptPhase1 e pt).header) ∧
    (∀ t, e.encrypt pt = .ok t →
        ∃ rest, t = (encryptPhase1 e pt).header ++ "." ++ rest) := by
  have htr : encryptTrace e pt =
      Event.createCekCall ::
      Event.snapshotTaken (snapshotHeaders e.userHeaders) ::
      Event.createIVCall ::
      Event.contentEncryptCall e.cryptographer.createIV
        (arrayFromString (Base64Url.encode (jsonStringify (buildHeaders e))))
        (arrayFromString pt) ::
      (encryptPhase2 e (encryptPhase1 e pt)).1 := by
    simp [encryptTrace, encryptRun, encryptPhase1]
  have hhd : (encryptPhase1 e pt).header =
      Base64Url.encode (jsonStringify (buildHeaders e)) := rfl
  refine ⟨?_, ?_, ?_⟩
  · rw [htr, hhd]
    simp
  · intro iv aad ptb hmem
    rw [htr] at hmem
    rw [hhd]
    simp only [List.mem_cons] at hmem
    rcases hmem with h1 | h1 | h1 | h1 | h1
    · exact absurd h1 (by simp)
    · exact absurd h1 (by simp)
    · exact absurd h1 (by simp)
    · exact (Event.contentEncryptCall.injEq _ _ _ _ _ _).mp h1 |>.2.1
    · exfalso
      revert h1
      unfold encryptPhase2
      cases e.key_promise <;> cases (encryptPhase1 e pt).cek_promise <;> simp
  · intro t ht
    obtain ⟨key, cek, w, parts, _, _, _, _, hteq⟩ := encrypt_ok_elim ht
    refine ⟨Base64Url.encodeArray w ++ "." ++
        Base64Url.encodeArray e.cryptographer.createIV ++ "." ++
        Base64Url.encodeArray parts.cipher ++ "." ++
        Base64Url.encodeArray parts.tag, ?_⟩
    rw [hteq, hhd]
    simp [String.append_assoc]

/-- C3: a failure of the recipient-key future, CEK creation, key wrapping or
content encryption rejects the `encrypt` future with that originating error;
a token is only produced when the key and CEK resolved; the Encrypter state
is unchanged. -/
theorem C3_error_propagation {K Cek Err : Type} (e : Encrypter K Cek Err)
    (pt : String) :
    (∀ err, e.key_promise = .error err → e.encrypt pt = .error err) ∧
    (∀ key err, e.key_promise = .ok key →
        e.cryptographer.createCek = .error err → e.encrypt pt = .error err) ∧
    (∀ key cek err, e.key_promise = .ok key →
        e.cryptographer.createCek = .ok cek →
        e.cryptographer.wrapCek cek key = .error err →
        e.encrypt pt = .error err) ∧
    (∀ key cek w err, e.key_promise = .ok key →
        e.cryptographer.createCek = .ok cek →
        e.cryptographer.wrapCek cek key = .ok w →
        e.cryptographer.encrypt e.cryptographer.createIV
          (arrayFromString (Base64Url.encode (jsonStringify (buildHeaders e))))
          e.cryptographer.createCek (arrayFromString pt) = .error err →
        e.encrypt pt = .error err) ∧
    (∀ t, e.encrypt pt = .ok t →
        (∃ key, e.key_promise = .ok key) ∧
        (∃ cek, e.cryptographer.createCek = .ok cek) ∧
        (∀ err, e.cryptographer.createCek ≠ .error err)) ∧
    (encryptRun e pt).1 = e := by
  refine ⟨?_, ?_, ?_, ?_, ?_, rfl⟩
  · intro err hk
    unfold Encrypter.encrypt encryptRun
    simp [encryptPhase1, encryptPhase2, hk]
  · intro key err hk hc
    unfold Encrypter.encrypt encryptRun
    simp [encryptPhase1, encryptPhase2, hk, hc]
  · intro key cek err hk hc hw
    unfold Encrypter.encrypt encryptRun
    simp [encryptPhase1, encryptPhase2, hk, hc, hw]
  · intro key cek w err hk hc hw he
    unfold Encrypter.encrypt encryptRun
    rw [hc] at he
    simp [encryptPhase1, encryptPhase2, hk, hc, hw, he, Except.map]
  · intro t ht
    obtain ⟨key, cek, w, parts, hk, hc, _, _, _⟩ := encrypt_ok_elim ht
    exact ⟨⟨key, hk⟩, ⟨cek, hc⟩, fun err herr => by rw [hc] at herr; cases herr⟩

/-- Witness for C3: a rejected recipient-key promise rejects `encrypt` with
that same error. -/
theorem C3_witness :
    Encrypter.encrypt mockEncrypterKeyFail "hi" = .error "key unavailable" :=
  (C3_error_propagation mockEncrypterKeyFail "hi").1 "key unavailable" rfl

/-- C4: the first token segment encodes the JSON serialization of the snapshot
header map, in which `alg` and `enc` are the Cryptographer's configured
algorithm identifiers, whatever `addHeader` previously wrote for those keys. -/
theorem C4_alg_enc_override {K Cek Err : Type} (e : Encrypter K Cek Err)
    (pt t : String) (h : e.encrypt pt = .ok t) :
    ∃ m rest, t = Base64Url.encode (jsonStringify m) ++ "." ++ rest ∧
      m = buildHeaders e ∧
      List.lookup "alg" m = some e.cryptographer.getKeyEncryptionAlgorithm ∧
      List.lookup "enc" m = some e.cryptographer.getContentEncryptionAlgorithm := by
  obtain ⟨key, cek, w, parts, _, _, _, _, hteq⟩ := encrypt_ok_elim h
  refine ⟨buildHeaders e,
    Base64Url.encodeArray w ++ "." ++
    Base64Url.encodeArray e.cryptographer.createIV ++ "." ++
    Base64Url.encodeArray parts.cipher ++ "." ++
    Base64Url.encodeArray parts.tag, ?_, rfl, ?_, ?_⟩
  · rw [hteq]
    simp [String.append_assoc]
  · rw [buildHeaders, lookup_setKey_ne _ _ _ _ (by decide), lookup_setKey_self]
  · rw [buildHeaders, lookup_setKey_self]

/-- Witness for C4 at a concrete call where the caller tried to set `alg`
beforehand. -/
theorem C4_witness :
    ∃ m rest,
      tokenOf (mockEncrypter.addHeader "alg" "evil") "x" =
        Base64Url.encode (jsonStringify m) ++ "." ++ rest ∧
      m = buildHeaders (mockEncrypter.addHeader "alg" "evil") ∧
      List.lookup "alg" m =
        some (mockEncrypter.addHeader "alg" "evil").cryptographer.getKeyEncryptionAlgorithm ∧
      List.lookup "enc" m =
        some (mockEncrypter.addHeader "alg" "evil").cryptographer.getContentEncryptionAlgorithm :=
  C4_alg_enc_override (mockEncrypter.addHeader "alg" "evil") "x"
    (tokenOf (mockEncrypter.addHeader "alg" "evil") "x") (by rfl)

/-- C5 (counterexample): the claim that the header snapshot is taken strictly
before any Cryptographer operation is initiated fails on the code: in the
trace of a concrete call, `createCek()` (trace position 0) is initiated
before the snapshot is taken (trace position 1), because line 89 of the
source runs before `encryptPlainText` is invoked on line 98. -/
theorem C5_counterexample :
    ¬ snapshotBeforeAllCryptoCalls (encryptTrace mockEncrypter "hi") := by
  intro h
  have h10 := h 1 0 (Event.snapshotTaken []) Event.createCekCall
    (by decide) (by decide) (by decide) (by decide)
  omega

/-- C5 (amended): during `encrypt` the CEK-creation call is initiated first,
the header snapshot is taken immediately after it, and every other
Cryptographer operation (IV creation, content encryption, key wrapping) is
initiated strictly after the snapshot. -/
theorem C5_amended_snapshot_order {K Cek Err : Type} (e : Encrypter K Cek Err)
    (pt : String) :
    (encryptTrace e pt)[0]? = some Event.createCekCall ∧
    (encryptTrace e pt)[1]? =
      some (Event.snapshotTaken (snapshotHeaders e.userHeaders)) ∧
    (∀ (i : Nat) (ev : Event K Cek), (encryptTrace e pt)[i]? = some ev →
        ev.isCryptoCall = true → ev ≠ Event.createCekCall → 2 ≤ i) := by
  have htr : encryptTrace e pt =
      Event.createCekCall ::
      Event.snapshotTaken (snapshotHeaders e.userHeaders) ::
      Event.createIVCall ::
      Event.contentEncryptCall e.cryptographer.createIV
        (arrayFromString (Base64Url.encode (jsonStringify (buildHeaders e))))
        (arrayFromString pt) ::
      (encryptPhase2 e (encryptPhase1 e pt)).1 := by
    simp [encryptTrace, encryptRun, encryptPhase1]
  refine ⟨by rw [htr]; rfl, by rw [htr]; rfl, ?_⟩
  intro i ev hi hcrypto hne
  rcases i with _ | _ | n
  · rw [htr] at hi
    simp only [List.getElem?_cons_zero, Option.some.injEq] at hi
    exact absurd hi.symm hne
  · rw [htr] at hi
    simp only [List.getElem?_cons_succ, List.getElem?_cons_zero,
      Option.some.injEq] at hi
    rw [← hi] at hcrypto
    simp [Event.isCryptoCall] at hcrypto
  · omega

/-- Witness for C5 (amended) at a concrete call. -/
theorem C5_amended_witness :
    (encryptTrace mockEncrypter "hi")[0]? = some Event.createCekCall ∧
    2 ≤ 2 :=
  ⟨(C5_amended_snapshot_order mockEncrypter "hi").1,
   (C5_amended_snapshot_order mockEncrypter "hi").2.2 2 Event.createIVCall
     (by decide) (by decide) (by decide)⟩

/-- C6: mutating the header map after `encrypt` has been invoked does not
change the remainder of that in-flight operation: the deferred callbacks,
run against the mutated Encrypter, produce the same events and the same
token as against the original, and the header segment is the one fixed by
the snapshot taken at invocation. -/
theorem C6_snapshot_isolation {K Cek Err : Type} (e : Encrypter K Cek Err)
    (pt k v : String) :
    encryptPhase2 (e.addHeader k v) (encryptPhase1 e pt) =
      encryptPhase2 e (encryptPhase1 e pt) ∧
    (encryptPhase1 e pt).header =
      Base64Url.encode (jsonStringify (buildHeaders e)) :=
  ⟨rfl, rfl⟩

/-- C7: the wrap task runs `wrapCek` exactly when both the recipient-key
future and the CEK future resolved, with those resolved values (a join on
both); its wrapped-CEK output is the second token segment. -/
theorem C7_wrap_joins_key_and_cek {K Cek Err : Type} (e : Encrypter K Cek Err)
    (pt : String) :
    (∀ (cek : Cek) (key : K),
        Event.wrapCekCall cek key ∈ encryptTrace e pt ↔
          e.key_promise = .ok key ∧ e.cryptographer.createCek = .ok cek) ∧
    (∀ t, e.encrypt pt = .ok t →
        ∃ (key : K) (cek : Cek) (w : Bytes) (s1 rest : String),
          e.key_promise = .ok key ∧ e.cryptographer.createCek = .ok cek ∧
          e.cryptographer.wrapCek cek key = .ok w ∧
          t = s1 ++ "." ++ Base64Url.encodeArray w ++ "." ++ rest ∧
          s1.data.count '.' = 0) := by
  constructor
  · intro cek key
    have htr : encryptTrace e pt =
        (encryptPhase1 e pt).events ++ (encryptPhase2 e (encryptPhase1 e pt)).1 :=
      rfl
    rw [htr]
    have hev : (encryptPhase1 e pt).events =
        [Event.createCekCall,
         Event.snapshotTaken (snapshotHeaders e.userHeaders),
         Event.createIVCall,
         Event.contentEncryptCall e.cryptographer.createIV
           (arrayFromString (Base64Url.encode (jsonStringify (buildHeaders e))))
           (arrayFromString pt)] := rfl
    have hck : (encryptPhase1 e pt).cek_promise = e.cryptographer.createCek := rfl
    constructor
    · intro hmem
      rcases List.mem_append.mp hmem with h1 | h1
      · rw [hev] at h1
        simp at h1
      · revert h1
        unfold encryptPhase2
        rw [hck]
        cases hkp : e.key_promise with
        | error err => intro h1; simp at h1
        | ok key0 =>
            cases hcek : e.cryptographer.createCek with
            | error err => intro h1; simp at h1
            | ok cek0 =>
                intro h1
                simp only [List.mem_singleton] at h1
                obtain ⟨h2, h3⟩ := (Event.wrapCekCall.injEq _ _ _ _).mp h1
                exact ⟨by rw [h3], by rw [h2]⟩
    · rintro ⟨h1, h2⟩
      rw [List.mem_append]
      right
      unfold encryptPhase2
      rw [hck, h1, h2]
      simp
  · intro t ht
    obtain ⟨key, cek, w, parts, hk, hc, hw, _, hteq⟩ := encrypt_ok_elim ht
    refine ⟨key, cek, w, Base64Url.encode (jsonStringify (buildHeaders e)),
      Base64Url.encodeArray e.cryptographer.createIV ++ "." ++
      Base64Url.encodeArray parts.cipher ++ "." ++
      Base64Url.encodeArray parts.tag, hk, hc, hw, ?_, encode_count_dot _⟩
    rw [hteq]
    simp [String.append_assoc]

/-- Witness for C7: at a concrete call the wrap event carries exactly the
resolved CEK and recipient key. -/
theorem C7_witness :
    Event.wrapCekCall 7 5 ∈ encryptTrace mockEncrypter "hi" :=
  ((C7_wrap_joins_key_and_cek mockEncrypter "hi").1 7 5).mpr ⟨rfl, rfl⟩

/-- C8: the content-encryption task does not depend on the recipient key:
for any two recipient-key promises (resolved or rejected) and otherwise
identical Encrypters, the whole synchronous phase — header string, IV, AAD
and plaintext bytes handed to the content-encryption call — is identical,
and the traces agree on every event except the key-wrapping call. -/
theorem C8_content_encrypt_key_independent {K Cek Err : Type}
    (c : Cryptographer K Cek Err) (kp1 kp2 : Except Err K)
    (uh : List (String × String)) (pt : String) :
    encryptPhase1 ⟨c, kp1, uh⟩ pt = encryptPhase1 ⟨c, kp2, uh⟩ pt ∧
    (encryptTrace ⟨c, kp1, uh⟩ pt).filter (fun ev => !ev.isWrapCall) =
      (encryptTrace ⟨c, kp2, uh⟩ pt).filter (fun ev => !ev.isWrapCall) := by
  refine ⟨rfl, ?_⟩
  have hflt : ∀ (kp : Except Err K),
      (encryptTrace ⟨c, kp, uh⟩ pt).filter (fun ev => !ev.isWrapCall) =
        (encryptPhase1 ⟨c, kp, uh⟩ pt).events.filter (fun ev => !ev.isWrapCall) := by
    intro kp
    have htr : encryptTrace ⟨c, kp, uh⟩ pt =
        (encryptPhase1 ⟨c, kp, uh⟩ pt).events ++
          (encryptPhase2 ⟨c, kp, uh⟩ (encryptPhase1 ⟨c, kp, uh⟩ pt)).1 := rfl
    rw [htr, List.filter_append]
    have hwrap : (encryptPhase2 ⟨c, kp, uh⟩ (encryptPhase1 ⟨c, kp, uh⟩ pt)).1.filter
        (fun ev => !ev.isWrapCall) = [] := by
      have hck : (encryptPhase1 (⟨c, kp, uh⟩ : Encrypter K Cek Err) pt).cek_promise
          = c.createCek := rfl
      unfold encryptPhase2
      rw [hck]
      cases kp <;> cases c.createCek <;> simp [Event.isWrapCall]
    rw [hwrap, List.append_nil]
  rw [hflt kp1, hflt kp2]
  rfl

/-- C9 (counterexample): for k = "alg" the value of the second `addHeader`
call is not what ends up in the final protected header — the Cryptographer's
configured algorithm identifier is, and the token embeds it. -/
theorem C9_counterexample :
    Encrypter.encrypt eC9 "" =
      .ok (Base64Url.encode (jsonStringify (buildHeaders eC9)) ++ "." ++ restC9) ∧
    List.lookup "alg" (buildHeaders eC9) = some "RSA-OAEP" ∧
    some "RSA-OAEP" ≠ some "v2" := by
  refine ⟨by rfl, by rfl, by decide⟩

/-- C9 (amended): `addHeader` is last-write-wins on the header map for every
key — after `addHeader(k, v1); addHeader(k, v2)` the map holds exactly one
entry for `k` and its value is `v2`, whatever `k` is — and performs no
cryptographic side effect; for every key other than "alg" and "enc" that
last value is also the only one present for the key in the final protected
header, while for "alg" and "enc" the final protected header always carries
the Cryptographer's configured identifiers instead. -/
theorem C9_amended_last_write_wins {K Cek Err : Type} (e : Encrypter K Cek Err)
    (k v1 v2 : String) (hn : (e.userHeaders.map Prod.fst).Nodup) :
    List.lookup k ((e.addHeader k v1).addHeader k v2).userHeaders = some v2 ∧
    ((e.addHeader k v1).addHeader k v2).userHeaders.filter
        (fun p => p.1 == k) = [(k, v2)] ∧
    (k ≠ "alg" → k ≠ "enc" →
      (buildHeaders ((e.addHeader k v1).addHeader k v2)).filter
          (fun p => p.1 == k) = [(k, v2)]) ∧
    List.lookup "alg" (buildHeaders ((e.addHeader k v1).addHeader k v2)) =
      some e.cryptographer.getKeyEncryptionAlgorithm ∧
    List.lookup "enc" (buildHeaders ((e.addHeader k v1).addHeader k v2)) =
      some e.cryptographer.getContentEncryptionAlgorithm ∧
    ((e.addHeader k v1).addHeader k v2).cryptographer = e.cryptographer ∧
    ((e.addHeader k v1).addHeader k v2).key_promise = e.key_promise := by
  have huh : ((e.addHeader k v1).addHeader k v2).userHeaders =
      setKey (setKey e.userHeaders k v1) k v2 := rfl
  have hnodup2 : ((setKey (setKey e.userHeaders k v1) k v2).map Prod.fst).Nodup :=
    nodup_map_fst_setKey _ _ _ (nodup_map_fst_setKey _ _ _ hn)
  have hcount1 : countKey (setKey e.userHeaders k v1) k = 1 :=
    countKey_setKey_self _ _ _ (countKey_le_one_of_nodup _ _ hn)
  refine ⟨?_, ?_, ?_, ?_, ?_, rfl, rfl⟩
  · rw [huh]
    exact lookup_setKey_self _ _ _
  · rw [huh]
    exact filter_setKey_self _ _ _ (by rw [hcount1])
  · intro ha henc
    rw [buildHeaders, huh, snapshotHeaders_eq_self _ hnodup2]
    rw [filter_setKey_ne _ _ _ _ (Ne.symm henc), filter_setKey_ne _ _ _ _ (Ne.symm ha)]
    exact filter_setKey_self _ _ _ (by rw [hcount1])
  · rw [buildHeaders, lookup_setKey_ne _ _ _ _ (by decide), lookup_setKey_self]
    rfl
  · rw [buildHeaders, lookup_setKey_self]
    rfl

/-- Witness for C9 (amended) at a concrete call, with the final-header
implication discharged at the key "kid". -/
theorem C9_amended_witness :
    List.lookup "kid" ((mockEncrypter.addHeader "kid" "a").addHeader "kid" "b").userHeaders
      = some "b" ∧
    ((mockEncrypter.addHeader "kid" "a").addHeader "kid" "b").userHeaders.filter
        (fun p => p.1 == "kid") = [("kid", "b")] ∧
    (buildHeaders ((mockEncrypter.addHeader "kid" "a").addHeader "kid" "b")).filter
        (fun p => p.1 == "kid") = [("kid", "b")] ∧
    List.lookup "alg" (buildHeaders ((mockEncrypter.addHeader "kid" "a").addHeader "kid" "b")) =
      some mockEncrypter.cryptographer.getKeyEncryptionAlgorithm ∧
    List.lookup "enc" (buildHeaders ((mockEncrypter.addHeader "kid" "a").addHeader "kid" "b")) =
      some mockEncrypter.cryptographer.getContentEncryptionAlgorithm ∧
    ((mockEncrypter.addHeader "kid" "a").addHeader "kid" "b").cryptographer =
      mockEncrypter.cryptographer ∧
    ((mockEncrypter.addHeader "kid" "a").addHeader "kid" "b").key_promise =
      mockEncrypter.key_promise := by
  have h := C9_amended_last_write_wins mockEncrypter "kid" "a" "b" (by decide)
  exact ⟨h.1, h.2.1, h.2.2.1 (by decide) (by decide), h.2.2.2.1, h.2.2.2.2.1,
    h.2.2.2.2.2.1, h.2.2.2.2.2.2⟩

/-- C10: an `encrypt` call leaves the Encrypter itself unchanged — the user
header map, the Cryptographer reference and the key promise are those it
started with — while the alg/enc overrides appear only in the snapshot map
serialized into the token. -/
theorem C10_encrypt_leaves_state_unchanged {K Cek Err : Type}
    (e : Encrypter K Cek Err) (pt : String) :
    (encryptRun e pt).1.userHeaders = e.userHeaders ∧
    (encryptRun e pt).1.cryptographer = e.cryptographer ∧
    (encryptRun e pt).1.key_promise = e.key_promise ∧
    List.lookup "alg" (buildHeaders e) =
      some e.cryptographer.getKeyEncryptionAlgorithm ∧
    List.lookup "alg" (encryptRun e pt).1.userHeaders =
      List.lookup "alg" e.userHeaders := by
  refine ⟨rfl, rfl, rfl, ?_, rfl⟩
  rw [buildHeaders, lookup_setKey_ne _ _ _ _ (by decide), lookup_setKey_self]

end Jose
